import Mathlib

/-!
Verification development for the Semantic-Entropy-File-System repository
(sefs-project).  The Python backend is shallowly embedded: paths are plain
strings in POSIX form, the filesystem is an explicit state (lists of existing
file paths and directory paths), Python dicts become insertion-ordered
association lists, and external collaborators (the sentence-transformer
encoder, sklearn DBSCAN and TF-IDF, the CrewAI naming call) are oracle
function parameters.  Fallible operations return `Option`.
-/

namespace SEFS

/-- Association-list update with Python-dict semantics: an existing key keeps
its position and gets the new value, a new key is appended at the end. -/
def setAssoc [BEq α] (l : List (α × β)) (k : α) (v : β) : List (α × β) :=
  if (l.lookup k).isSome then
    l.map (fun kv => cond (kv.1 == k) (kv.1, v) kv)
  else
    l ++ [(k, v)]

/-- Split a character list at every occurrence of `sep` (the semantics of
`str.split(sep)` for a one-character separator). -/
def splitOnChar (sep : Char) : List Char → List (List Char)
  | [] => [[]]
  | c :: cs =>
    let r := splitOnChar sep cs
    if c == sep then [] :: r
    else
      match r with
      | [] => [[c]]
      | h :: t => (c :: h) :: t

/-- `p` is a character-wise prefix of `s` (the semantics of
`str.startswith`). -/
def isPrefixOfStr (p s : String) : Bool :=
  p.data.isPrefixOf s.data

/-- Python slicing `s[:n]` (by characters). -/
def strTake (s : String) (n : Nat) : String :=
  ⟨s.data.take n⟩

/-- Python slicing `s[n:]` (by characters). -/
def strDrop (s : String) (n : Nat) : String :=
  ⟨s.data.drop n⟩

/-- `len(s) == 0`. -/
def strIsEmpty (s : String) : Bool :=
  s.data.isEmpty

/-- Python `str.strip()` (whitespace from both ends). -/
def strTrim (s : String) : String :=
  ⟨((s.data.dropWhile Char.isWhitespace).reverse.dropWhile
      Char.isWhitespace).reverse⟩

/-- Python `str.replace(a, b)` for one-character patterns. -/
def strReplaceChar (s : String) (a b : Char) : String :=
  ⟨s.data.map (fun c => if c == a then b else c)⟩

/-- `s` ends with the character `c`. -/
def strEndsWithChar (s : String) (c : Char) : Bool :=
  s.data.getLast? == some c

/-- `c in s` for a single character. -/
def strContainsChar (s : String) (c : Char) : Bool :=
  s.data.contains c

/-- `'sep'.join(parts)`. -/
def strIntercalate (sep : String) : List String → String
  | [] => ""
  | [x] => x
  | x :: y :: xs => x ++ sep ++ strIntercalate sep (y :: xs)

/-- `s.lower()` (character-wise). -/
def strToLower (s : String) : String :=
  ⟨s.data.map Char.toLower⟩

/-- `Path(p).name` for a canonical POSIX path string: the part after the last
slash. -/
def basename (p : String) : String :=
  ⟨(splitOnChar '/' p.data).getLastD p.data⟩

/-- Index of the last occurrence of character `c` in `s` (Python `str.rfind`,
as a `Option Nat` instead of `-1`). -/
def rfindChar (s : String) (c : Char) : Option Nat :=
  (List.range s.data.length).foldl
    (fun acc i => if s.data[i]? == some c then some i else acc) none

/-- `PurePath.suffix`: the last dot-extension of a file name, empty unless the
dot is neither the first nor the last character. -/
def pySuffix (name : String) : String :=
  match rfindChar name '.' with
  | some i => if 0 < i && i < name.data.length - 1 then strDrop name i else ""
  | none => ""

/-- `PurePath.stem`: the file name without `pySuffix`. -/
def pyStem (name : String) : String :=
  match rfindChar name '.' with
  | some i => if 0 < i && i < name.data.length - 1 then strTake name i else name
  | none => name

/-- `OSManager._sanitize_folder_name`: replace the characters
`< > : " / \ | ? *` by underscores, cap at 50 characters, strip leading and
trailing spaces and dots, and substitute `Unnamed_Folder` for an empty
result. -/
def sanitizeFolderName (name : String) : String :=
  let invalid : List Char := ['<', '>', ':', '"', '/', '\\', '|', '?', '*']
  let s1 : List Char := name.data.map (fun c => if invalid.contains c then '_' else c)
  let s2 : List Char := if s1.length > 50 then s1.take 50 else s1
  let strip : Char → Bool := fun c => c == ' ' || c == '.'
  let s3 : List Char := ((s2.dropWhile strip).reverse.dropWhile strip).reverse
  if s3.isEmpty then "Unnamed_Folder" else ⟨s3⟩

/-- The managed filesystem: the existing regular files and the existing
directories, each as a canonical POSIX path string. -/
structure SyncFS where
  files : List String
  dirs : List String
deriving DecidableEq

/-- `Path(p).exists()`: true when `p` names an existing file or directory. -/
def pathExists (fs : SyncFS) (p : String) : Bool :=
  fs.files.contains p || fs.dirs.contains p

/-- `OSManager`'s mutable fields: the managed root and the
`semantic_folders` / `folder_names` dictionaries. -/
structure OSState where
  root : String
  semanticFolders : List (Int × String)
  folderNames : List (Int × String)
deriving DecidableEq

/-- `folder_path.mkdir(exist_ok=True)`.  (The `FileExistsError` raised when a
regular file already occupies the path is not modelled; theorems about sync
carry hypotheses keeping folder paths disjoint from files.) -/
def mkdirExistOk (fs : SyncFS) (p : String) : SyncFS :=
  if fs.dirs.contains p then fs else { fs with dirs := fs.dirs ++ [p] }

/-- `OSManager.create_semantic_folder`: sanitize the name, create the
directory under the root, and record it in both dictionaries. -/
def createSemanticFolder (st : OSState) (fs : SyncFS) (clusterId : Int)
    (folderName : String) : OSState × SyncFS :=
  let safeName := sanitizeFolderName folderName
  let folderPath := st.root ++ "/" ++ safeName
  let fs2 := mkdirExistOk fs folderPath
  ({ st with
      semanticFolders := setAssoc st.semanticFolders clusterId folderPath,
      folderNames := setAssoc st.folderNames clusterId safeName }, fs2)

/-- Renaming under `shutil.move` of a directory: any path equal to `src` or
strictly inside it gets its `src` prefix replaced by `dst`. -/
def renameUnder (src dst p : String) : String :=
  if p == src then dst
  else if isPrefixOfStr (src ++ "/") p then dst ++ (strDrop p src.length)
  else p

/-- `shutil.move(src, dst)` in the two cases the embedded code can reach: a
regular file is re-linked at `dst`, a directory is renamed together with
everything inside it.  (`move_file` guarantees `dst` does not exist.) -/
def shutilMove (fs : SyncFS) (src dst : String) : SyncFS :=
  if fs.files.contains src then
    { fs with files := dst :: fs.files.erase src }
  else
    { files := fs.files.map (renameUnder src dst),
      dirs := fs.dirs.map (renameUnder src dst) }

/-- The collision loop of `OSManager.move_file`: starting from counter `c`,
return the first `folder/stem_counterext` that does not exist.  `fuel` bounds
the recursion; callers pass more fuel than there are filesystem entries. -/
def findFreeDest (fs : SyncFS) (folder stem ext : String) :
    Nat → Nat → String
  | 0, c => folder ++ "/" ++ (stem ++ "_" ++ toString c ++ ext)
  | fuel + 1, c =>
      let cand := folder ++ "/" ++ (stem ++ "_" ++ toString c ++ ext)
      if pathExists fs cand then findFreeDest fs folder stem ext fuel (c + 1)
      else cand

/-- `OSManager.move_file`: returns the updated filesystem, the value returned
to the caller (`none` for a failure), and whether a physical move happened
(the no-op branch returns the destination without moving). -/
def moveFile (st : OSState) (fs : SyncFS) (filePath : String)
    (clusterId : Int) : SyncFS × Option String × Bool :=
  if !pathExists fs filePath then (fs, none, false)
  else
    match st.semanticFolders.lookup clusterId with
    | none => (fs, none, false)
    | some destFolder =>
        let name := basename filePath
        let dest0 := destFolder ++ "/" ++ name
        let dest :=
          if pathExists fs dest0 && dest0 != filePath then
            findFreeDest fs destFolder (pyStem name) (pySuffix name)
              (fs.files.length + fs.dirs.length + 1) 1
          else dest0
        if filePath == dest then (fs, some dest, false)
        else (shutilMove fs filePath dest, some dest, true)

/-- Grouping of `sync_clusters`: a Python dict built by appending, so cluster
ids appear in first-seen order and members keep their insertion order. -/
def groupByCluster (l : List (String × Int)) : List (Int × List String) :=
  l.foldl
    (fun acc pc =>
      if (acc.lookup pc.2).isSome then
        acc.map (fun g => if g.1 == pc.2 then (g.1, g.2 ++ [pc.1]) else g)
      else acc ++ [(pc.2, [pc.1])])
    []

/-- The folder name `sync_clusters` picks for a cluster: hard-coded
`Uncategorized` for `-1`, otherwise the supplied name with a `Cluster_<id>`
default. -/
def chooseFolderName (names : List (Int × String)) (clusterId : Int) : String :=
  if clusterId == -1 then "Uncategorized"
  else ((names.lookup clusterId).getD ("Cluster_" ++ toString clusterId))

/-- `d.iterdir()` is empty: nothing (file or directory) lies strictly inside
`d`. -/
def dirIsEmpty (fs : SyncFS) (d : String) : Bool :=
  fs.files.all (fun p => !(isPrefixOfStr (d ++ "/") p)) &&
  fs.dirs.all (fun p => !(isPrefixOfStr (d ++ "/") p))

/-- `d` is a directory entry directly inside `root`. -/
def isRootChild (root d : String) : Bool :=
  isPrefixOfStr (root ++ "/") d &&
  !(strContainsChar (strDrop d (root.length + 1)) '/')

/-- `OSManager._cleanup_empty_folders`: delete every non-hidden directory
directly under the root that has no entries. -/
def cleanupEmptyFolders (root : String) (fs : SyncFS) : SyncFS :=
  { fs with
      dirs := fs.dirs.filter (fun d =>
        !(isRootChild root d && !(isPrefixOfStr "." (basename d)) &&
          dirIsEmpty fs d)) }

/-- The result of one `sync_clusters` call. -/
structure SyncResult where
  st : OSState
  fs : SyncFS
  moved : List (String × String)
  moveCount : Nat
deriving DecidableEq

/-- One member move inside `sync_clusters`: call `move_file`, record a
truthy return in `moved_files`, and count the physical move. -/
def moveStep (st2 : OSState) (c : Int)
    (a : SyncFS × List (String × String) × Nat) (fp : String) :
    SyncFS × List (String × String) × Nat :=
  let (fs3, res, did) := moveFile st2 a.1 fp c
  (fs3,
   (match res with
    | some np => if strIsEmpty np then a.2.1 else a.2.1 ++ [(fp, np)]
    | none => a.2.1),
   a.2.2 + (if did then 1 else 0))

/-- Processing of one cluster group inside `sync_clusters`: create the
folder, then try to move every member, recording each non-`None` return in
`moved_files`. -/
def syncGroupStep (acc : SyncResult) (g : Int × List String)
    (names : List (Int × String)) : SyncResult :=
  let folderName := chooseFolderName names g.1
  let cf := createSemanticFolder acc.st acc.fs g.1 folderName
  let inner := g.2.foldl (moveStep cf.1 g.1) (cf.2, acc.moved, acc.moveCount)
  ⟨cf.1, inner.1, inner.2.1, inner.2.2⟩

/-- `OSManager.sync_clusters`: group the assignment by cluster, create each
folder and move its members, then clean up empty folders.  `moved` is the
returned `moved_files` dictionary and `moveCount` counts the physical
`shutil.move` calls. -/
def syncClusters (st : OSState) (fs : SyncFS)
    (assignments : List (String × Int)) (names : List (Int × String)) :
    SyncResult :=
  let r := (groupByCluster assignments).foldl
    (fun acc g => syncGroupStep acc g names) ⟨st, fs, [], 0⟩
  { r with fs := cleanupEmptyFolders r.st.root r.fs }

/-- The folder paths a given `sync_clusters` call creates, in group order
(used as a hypothesis vocabulary in the sync theorems). -/
def syncFolderPaths (root : String) (assignments : List (String × Int))
    (names : List (Int × String)) : List String :=
  (groupByCluster assignments).map
    (fun g => root ++ "/" ++ sanitizeFolderName (chooseFolderName names g.1))

/-- One record of `StateManager.state['files']`.  `currentPath = none` models
a legacy record missing the `current_path` field. -/
structure FileRec where
  cluster : Int
  preview : String
  currentPath : Option String
deriving DecidableEq

/-- `StateManager.state['files']` as an insertion-ordered dictionary. -/
structure SMState where
  files : List (String × FileRec)
deriving DecidableEq

/-- `StateManager.update_file`: upsert the record; the stored location is
`current_path or file_path` (Python truthiness: `None` and the empty string
fall back to the identifier). -/
def updateFile (sm : SMState) (filePath : String) (clusterId : Int)
    (contentPreview : String) (currentPath : Option String) : SMState :=
  let cp :=
    match currentPath with
    | some p => if strIsEmpty p then filePath else p
    | none => filePath
  { files := setAssoc sm.files filePath ⟨clusterId, contentPreview, some cp⟩ }

/-- `Path(root).rglob(name)` filtered by `is_file()`: the first existing file
under the root whose basename is `name`, in the model's walk order (the order
of `fs.files`). -/
def rglobFirstByName (fs : SyncFS) (root name : String) : Option String :=
  (fs.files.filter
    (fun p => isPrefixOfStr (root ++ "/") p && basename p == name)).head?

/-- `StateManager.resolve_current_path`: for a recorded identifier try the
recorded `current_path`, then the literal identifier path, then the recursive
basename search; an unrecorded identifier goes straight to the search. -/
def resolveCurrentPath (sm : SMState) (fs : SyncFS) (root : String)
    (fileIdentifier : String) : Option String :=
  match sm.files.lookup fileIdentifier with
  | some fileData =>
      let currentPath := fileData.currentPath.getD fileIdentifier
      if pathExists fs currentPath then some currentPath
      else if pathExists fs fileIdentifier then some fileIdentifier
      else rglobFirstByName fs root (basename fileIdentifier)
  | none => rglobFirstByName fs root (basename fileIdentifier)

/-- A `StateManager` history entry (`datetime.now()` is an opaque `Nat`). -/
structure HistorySnapshot where
  timestamp : Nat
  assignments : List (String × Int)
  names : List (Int × String)
deriving DecidableEq

/-- The trim inside `StateManager.save_history`: keep only the last 50
entries. -/
def saveHistoryTrim (history : List HistorySnapshot) : List HistorySnapshot :=
  if history.length > 50 then history.drop (history.length - 50) else history

/-- `StateManager.add_history_snapshot`: append, then `save_history` trims the
in-memory list to the most recent 50. -/
def addHistorySnapshot (history : List HistorySnapshot)
    (snap : HistorySnapshot) : List HistorySnapshot :=
  saveHistoryTrim (history ++ [snap])

/-- Embeddings are opaque fixed-length numeric vectors; the float vectors of
the sentence-transformer are modelled as rational vectors whose values no
embedded logic ever inspects. -/
abbrev Embedding := List Rat

/-- `SemanticEngine`'s three dictionaries. -/
structure EngineState where
  fileEmbeddings : List (String × Embedding)
  fileContents : List (String × String)
  clusterAssignments : List (String × Int)
deriving DecidableEq

/-- `SemanticEngine.add_file`: silently skip content whose trimmed length is
below 10, otherwise embed the first 5000 characters (via the `encode` oracle)
and keep a 500-character preview. -/
def addFile (encode : String → Embedding) (st : EngineState)
    (filePath content : String) : EngineState :=
  if (strTrim content).length < 10 then st
  else
    { st with
        fileEmbeddings :=
          setAssoc st.fileEmbeddings filePath (encode (strTake content 5000)),
        fileContents :=
          setAssoc st.fileContents filePath (strTake content 500) }

/-- `SemanticEngine.remove_file`: drop the identifier from all three
dictionaries; no error if absent. -/
def removeFile (st : EngineState) (filePath : String) : EngineState :=
  { fileEmbeddings := st.fileEmbeddings.filter (fun kv => kv.1 != filePath),
    fileContents := st.fileContents.filter (fun kv => kv.1 != filePath),
    clusterAssignments :=
      st.clusterAssignments.filter (fun kv => kv.1 != filePath) }

/-- `PurePosixPath(p).anchor` (drive + root): `/` for an absolute POSIX path,
empty for a relative one.  Only its last character is ever used, which is `/`
for every anchored POSIX form. -/
def pyPosixAnchor (p : String) : String :=
  if isPrefixOfStr "/" p then "/" else ""

/-- `SemanticEngine.remove_directory`: build
`str(dir_path).rstrip('\\/') + Path(dir_path).anchor[-1]`, fall back to
appending a separator if that does not end in one, then remove every indexed
identifier whose path starts with the result.  `none` models the
`IndexError` Python raises on `anchor[-1]` when the anchor is empty (any
relative `dir_path`). -/
def removeDirectory (st : EngineState) (dirPath : String) :
    Option EngineState :=
  let stripped : String :=
    ⟨(dirPath.data.reverse.dropWhile (fun c => c == '\\' || c == '/')).reverse⟩
  let anchor := pyPosixAnchor dirPath
  if strIsEmpty anchor then none
  else
    let ds0 := stripped.push (anchor.data.getLastD ' ')
    let ds :=
      if strEndsWithChar ds0 '\\' || strEndsWithChar ds0 '/' then ds0
      else ds0 ++ (if strContainsChar ds0 '\\' then "\\" else "/")
    let allPaths := st.fileEmbeddings.map Prod.fst
    some (allPaths.foldl
      (fun s fp => if isPrefixOfStr ds fp then removeFile s fp else s) st)

/-- `SemanticEngine.cluster_files`: 0 embeddings yield the empty mapping
without touching the cached assignment, 1 embedding is special-cased to
cluster 0, and 2 or more go through DBSCAN (the `dbscan` oracle, which
returns one label per embedding in order). -/
def clusterFiles (dbscan : List Embedding → List Int) (st : EngineState) :
    EngineState × List (String × Int) :=
  if st.fileEmbeddings.length < 2 then
    if st.fileEmbeddings.length == 1 then
      let fp := (st.fileEmbeddings.map Prod.fst).headD ""
      ({ st with clusterAssignments := [(fp, 0)] }, [(fp, 0)])
    else (st, [])
  else
    let filePaths := st.fileEmbeddings.map Prod.fst
    let labels := dbscan (st.fileEmbeddings.map Prod.snd)
    let ca := filePaths.zip labels
    ({ st with clusterAssignments := ca }, ca)

/-- `str.strip(chars)` for an explicit character set. -/
def stripEndChars (s : String) (cs : List Char) : String :=
  ⟨((s.data.dropWhile (cs.contains ·)).reverse.dropWhile
      (cs.contains ·)).reverse⟩

/-- The clean-up `AIClusterNamer.generate_names` applies to the raw LLM
answer: trim, strip quotes, keep the first line and first sentence, turn
spaces into underscores, and drop every character that is not alphanumeric or
an underscore. -/
def cleanAiName (raw : String) : String :=
  let n := strTrim raw
  let n := stripEndChars n ['"', '\'']
  let n : String := ⟨(splitOnChar '\n' n.data).headD n.data⟩
  let n : String := ⟨(splitOnChar '.' n.data).headD n.data⟩
  let n := strReplaceChar n ' ' '_'
  ⟨n.data.filter (fun c => c.isAlphanum || c == '_')⟩

/-- Python `str.capitalize()`: first character upper-cased, the rest
lower-cased. -/
def pyCapitalize (s : String) : String :=
  match s.data with
  | [] => ""
  | c :: rest => ⟨c.toUpper :: rest.map Char.toLower⟩

/-- `re.findall(r'\w+', s)`: the maximal runs of word characters. -/
def wordRuns (s : String) : List String :=
  let step := fun (acc : List (List Char) × List Char) c =>
    if c.isAlphanum || c == '_' then (acc.1, acc.2 ++ [c])
    else if acc.2.isEmpty then acc else (acc.1 ++ [acc.2], [])
  let r := s.data.foldl step ([], [])
  ((if r.2.isEmpty then r.1 else r.1 ++ [r.2]).map
    (fun l => (⟨l⟩ : String)))

/-- `Counter(words).most_common(3)`: counts in first-insertion order, stably
sorted by descending count, first three kept. -/
def mostCommon3 (ws : List String) : List (String × Nat) :=
  let distinct := ws.foldl
    (fun acc w => if acc.contains w then acc else acc ++ [w]) []
  let counted := distinct.map (fun w => (w, ws.count w))
  (counted.mergeSort (fun a b => decide (b.2 ≤ a.2))).take 3

/-- The filename-based tail of `AIClusterNamer._fallback_naming`: most common
words of the member stems, joined and capitalized, with a `Cluster_<id>`
default. -/
def filenameFallbackName (clusterId : Int) (files : List String) : String :=
  let words := files.foldl
    (fun acc fp => acc ++ wordRuns (strToLower (pyStem (basename fp)))) []
  let common := mostCommon3 words
  if !common.isEmpty then
    pyCapitalize (strIntercalate "_" (common.map Prod.fst))
  else "Cluster_" ++ toString clusterId

/-- The per-cluster body of `AIClusterNamer._fallback_naming`: `-1` is
hard-coded `Uncategorized`; other clusters get a TF-IDF keyword name (the
`tfidf` oracle models sklearn; `none` models its exception path) with the
filename fallback behind it. -/
def fallbackNameOf (tfidf : List String → Option (List String))
    (contents : List (String × String)) (g : Int × List String) : String :=
  if g.1 == -1 then "Uncategorized"
  else
    let texts := g.2.filterMap (fun fp =>
      let c := (contents.lookup fp).getD ""
      if strIsEmpty c then none else some c)
    if !texts.isEmpty then
      match tfidf texts with
      | some keywords =>
          if keywords.length > 0 then
            strIntercalate "_" (keywords.map pyCapitalize)
          else filenameFallbackName g.1 g.2
      | none => filenameFallbackName g.1 g.2
    else filenameFallbackName g.1 g.2

/-- One loop iteration of `_fallback_naming`: assign the group's name (the
keys produced by the grouping are fresh, so the dict assignment is an
append). -/
def fallbackNameStep (tfidf : List String → Option (List String))
    (contents : List (String × String)) (acc : List (Int × String))
    (g : Int × List String) : List (Int × String) :=
  acc ++ [(g.1, fallbackNameOf tfidf contents g)]

/-- `AIClusterNamer._fallback_naming`: group by cluster and name each group
via `fallbackNameStep`. -/
def fallbackNaming (tfidf : List String → Option (List String))
    (assignments : List (String × Int)) (contents : List (String × String)) :
    List (Int × String) :=
  (groupByCluster assignments).foldl (fallbackNameStep tfidf contents) []

/-- The per-cluster body of the AI path of `AIClusterNamer.generate_names`:
`-1` is hard-coded `Uncategorized` before any model call, clusters with no
usable previews get `Cluster_<id>`, and otherwise the cleaned LLM answer
(the `kickoff` oracle models `crew.kickoff()`) is used, with `Cluster_<id>`
replacing an empty cleaned answer. -/
def aiNameOf (kickoff : Int → List String → String)
    (contents : List (String × String)) (g : Int × List String) : String :=
  if g.1 == -1 then "Uncategorized"
  else
    let summaries := (g.2.take 5).filterMap (fun fp =>
      let c := (contents.lookup fp).getD ""
      if strIsEmpty c then none
      else some ("- " ++ pyStem (basename fp) ++ ": " ++
                 strReplaceChar (strTake c 200) '\n' ' '))
    if summaries.isEmpty then "Cluster_" ++ toString g.1
    else
      let name := cleanAiName (kickoff g.1 summaries)
      if strIsEmpty name then "Cluster_" ++ toString g.1 else name

/-- One loop iteration of the AI path of `generate_names` (fresh keys, so the
dict assignment is an append). -/
def aiNameStep (kickoff : Int → List String → String)
    (contents : List (String × String)) (acc : List (Int × String))
    (g : Int × List String) : List (Int × String) :=
  acc ++ [(g.1, aiNameOf kickoff contents g)]

/-- `AIClusterNamer.generate_names` dispatch: without AI defer to the
fallback, with AI name each group via `aiNameStep`. -/
def generateNames (aiAvailable : Bool) (kickoff : Int → List String → String)
    (tfidf : List String → Option (List String))
    (assignments : List (String × Int)) (contents : List (String × String)) :
    List (Int × String) :=
  if !aiAvailable then fallbackNaming tfidf assignments contents
  else (groupByCluster assignments).foldl (aiNameStep kickoff contents) []

/-- The watcher's event kinds. -/
inductive EventKind where
  | created
  | modified
  | deleted
  | directoryDeleted
deriving DecidableEq

/-- The membership test of `SEFSCoordinator.process_events` line 166. -/
def isMutatingEvent (k : EventKind) : Bool :=
  k == .modified || k == .deleted || k == .directoryDeleted

/-- `SEFSCoordinator._process_file`: extract content (the `extract` oracle
models the extractor; empty output means skip) and add it to the index. -/
def processFileStep (encode : String → Embedding) (extract : String → String)
    (eng : EngineState) (filePath : String) : EngineState :=
  let content := extract filePath
  if strIsEmpty content then eng
  else addFile encode eng filePath content

/-- One iteration of the event loop in `process_events`: `created` only
collects the pending entry `(path, name)`, the other kinds mutate the index.
`none` propagates the `IndexError` of `remove_directory`. -/
def indexEventStep (encode : String → Embedding) (extract : String → String)
    (acc : EngineState × List (String × String)) (ev : EventKind × String) :
    Option (EngineState × List (String × String)) :=
  match ev.1 with
  | .created => some (acc.1, acc.2 ++ [(ev.2, basename ev.2)])
  | .modified => some (processFileStep encode extract acc.1 ev.2, acc.2)
  | .deleted => some (removeFile acc.1 ev.2, acc.2)
  | .directoryDeleted => (removeDirectory acc.1 ev.2).map (fun e => (e, acc.2))

/-- The whole event loop of `process_events`, producing the updated engine
and the `new_files` list. -/
def indexEvents (encode : String → Embedding) (extract : String → String)
    (eng : EngineState) (events : List (EventKind × String)) :
    Option (EngineState × List (String × String)) :=
  events.foldlM (indexEventStep encode extract) (eng, [])

/-- The full mutable state the coordinator drives. -/
structure SysState where
  engine : EngineState
  os : OSState
  fs : SyncFS
  sm : SMState
  history : List HistorySnapshot
  clusterNames : List (Int × String)
deriving DecidableEq

/-- The persisting loop of `SEFSCoordinator._reorganize` (lines 97-106):
every clustered identifier is upserted with its cluster, preview, and
`moved_files.get(file_path, file_path)` as location. -/
def reorganizePersist (sm : SMState) (assignments : List (String × Int))
    (moved : List (String × String)) (contents : List (String × String)) :
    SMState :=
  assignments.foldl
    (fun s pc =>
      updateFile s pc.1 pc.2 ((contents.lookup pc.1).getD "")
        (some ((moved.lookup pc.1).getD pc.1)))
    sm

/-- `SEFSCoordinator._reorganize`: cluster, return early on an empty
assignment, otherwise name, sync, persist every assignment, and append a
history snapshot. -/
def reorganize (dbscan : List Embedding → List Int) (aiAvailable : Bool)
    (kickoff : Int → List String → String)
    (tfidf : List String → Option (List String)) (ts : Nat) (s : SysState) :
    SysState :=
  let (eng2, ca) := clusterFiles dbscan s.engine
  if ca.isEmpty then { s with engine := eng2 }
  else
    let names := generateNames aiAvailable kickoff tfidf ca eng2.fileContents
    let r := syncClusters s.os s.fs ca names
    let sm2 := reorganizePersist s.sm ca r.moved eng2.fileContents
    let hist2 := addHistorySnapshot s.history ⟨ts, ca, names⟩
    { engine := eng2, os := r.st, fs := r.fs, sm := sm2, history := hist2,
      clusterNames := names }

/-- What one `process_events` call produces. -/
structure ProcessResult where
  state : SysState
  newFiles : List (String × String)
  callbackPayload : Option (List (String × String))
  didReorganize : Bool
  returnValue : Bool
deriving DecidableEq

/-- `SEFSCoordinator.process_events`: return `False` on an empty batch; run
the event loop; notify the pending callback when there are new files and a
callback is installed; reorganize exactly when some `modified`, `deleted` or
`directory_deleted` event was drained. -/
def processEvents (encode : String → Embedding) (extract : String → String)
    (dbscan : List Embedding → List Int) (aiAvailable : Bool)
    (kickoff : Int → List String → String)
    (tfidf : List String → Option (List String)) (hasCallback : Bool)
    (ts : Nat) (s : SysState) (events : List (EventKind × String)) :
    Option ProcessResult :=
  if events.isEmpty then some ⟨s, [], none, false, false⟩
  else
    (indexEvents encode extract s.engine events).map (fun r =>
      let s2 := { s with engine := r.1 }
      let newFiles := r.2
      let payload :=
        if !newFiles.isEmpty && hasCallback then some newFiles else none
      if events.any (fun e => isMutatingEvent e.1) then
        ⟨reorganize dbscan aiAvailable kickoff tfidf ts s2, newFiles,
          payload, true, true⟩
      else ⟨s2, newFiles, payload, false, !newFiles.isEmpty⟩)

/-! ## Helper lemmas -/

theorem lookup_append_some {α β : Type} [BEq α] {l1 l2 : List (α × β)}
    {k : α} {v : β} (h : l1.lookup k = some v) :
    (l1 ++ l2).lookup k = some v := by
  induction l1 with
  | nil => simp [List.lookup] at h
  | cons x xs ih =>
    obtain ⟨a, b⟩ := x
    simp only [List.cons_append, List.lookup] at h ⊢
    cases hk : k == a <;> simp only [hk] at h ⊢
    · exact ih h
    · exact h

theorem lookup_append_none {α β : Type} [BEq α] {l1 : List (α × β)}
    (l2 : List (α × β)) {k : α} (h : l1.lookup k = none) :
    (l1 ++ l2).lookup k = l2.lookup k := by
  induction l1 with
  | nil => simp
  | cons x xs ih =>
    obtain ⟨a, b⟩ := x
    simp only [List.cons_append, List.lookup] at h ⊢
    cases hk : k == a <;> simp only [hk] at h ⊢
    · exact ih h
    · exact Option.noConfusion h

theorem lookup_map_update_self {α β : Type} [BEq α] [LawfulBEq α]
    (l : List (α × β)) (k : α) (v : β) (hp : (l.lookup k).isSome) :
    (l.map (fun kv => cond (kv.1 == k) (kv.1, v) kv)).lookup k
      = some v := by
  induction l with
  | nil => simp [List.lookup] at hp
  | cons x xs ih =>
    obtain ⟨a, b⟩ := x
    by_cases hk : a = k
    · subst hk
      simp [List.lookup]
    · have hne : (k == a) = false := beq_eq_false_iff_ne.mpr (Ne.symm hk)
      have hne2 : (a == k) = false := beq_eq_false_iff_ne.mpr hk
      simp only [List.lookup, hne] at hp
      simp only [List.map_cons, hne2, cond_false, List.lookup, hne]
      exact ih hp

theorem lookup_map_update_ne {α β : Type} [BEq α] [LawfulBEq α]
    (l : List (α × β)) (k k2 : α) (v : β) (h : k2 ≠ k) :
    (l.map (fun kv => cond (kv.1 == k) (kv.1, v) kv)).lookup k2
      = l.lookup k2 := by
  induction l with
  | nil => simp
  | cons x xs ih =>
    obtain ⟨a, b⟩ := x
    by_cases hk : a = k
    · subst hk
      have hne : (k2 == a) = false := beq_eq_false_iff_ne.mpr h
      simp only [List.map_cons, beq_self_eq_true, cond_true, List.lookup, hne]
      exact ih
    · have hne2 : (a == k) = false := beq_eq_false_iff_ne.mpr hk
      simp only [List.map_cons, hne2, cond_false, List.lookup]
      cases hk2 : k2 == a
      · exact ih
      · rfl

theorem lookup_setAssoc_self {α β : Type} [BEq α] [LawfulBEq α]
    (l : List (α × β)) (k : α) (v : β) :
    (setAssoc l k v).lookup k = some v := by
  unfold setAssoc
  by_cases hp : (l.lookup k).isSome
  · simp only [hp, if_true]
    exact lookup_map_update_self l k v hp
  · rw [if_neg hp]
    have hnone : l.lookup k = none := by
      cases hl : l.lookup k
      · rfl
      · simp [hl] at hp
    rw [lookup_append_none _ hnone]
    simp [List.lookup]

theorem lookup_setAssoc_ne {α β : Type} [BEq α] [LawfulBEq α]
    (l : List (α × β)) (k k2 : α) (v : β) (h : k2 ≠ k) :
    (setAssoc l k v).lookup k2 = l.lookup k2 := by
  unfold setAssoc
  by_cases hp : (l.lookup k).isSome
  · simp only [hp, if_true]
    exact lookup_map_update_ne l k k2 v h
  · rw [if_neg hp]
    cases hl : l.lookup k2
    · rw [lookup_append_none _ hl]
      have hne : (k2 == k) = false := by simp [h]
      simp [List.lookup, hne]
    · exact lookup_append_some hl

theorem lookup_isSome_mem_fst {α β : Type} [BEq α] [LawfulBEq α]
    {l : List (α × β)} {k : α} (h : (l.lookup k).isSome = true) :
    k ∈ l.map Prod.fst := by
  induction l with
  | nil => simp [List.lookup] at h
  | cons x xs ih =>
    obtain ⟨a, b⟩ := x
    simp only [List.lookup] at h
    cases hk : k == a
    · simp only [hk] at h
      simp [ih h]
    · have : k = a := by simpa using hk
      simp [this]

theorem pathExists_eq_false {fs : SyncFS} {p : String}
    (h1 : p ∉ fs.files) (h2 : p ∉ fs.dirs) : pathExists fs p = false := by
  simp only [pathExists, Bool.or_eq_false_iff]
  constructor
  · simpa using h1
  · simpa using h2

theorem moveFile_not_exists (st : OSState) (fs : SyncFS) (p : String)
    (c : Int) (h : pathExists fs p = false) :
    moveFile st fs p c = (fs, none, false) := by
  simp [moveFile, h]

theorem createSemanticFolder_fst_root (st : OSState) (fs : SyncFS)
    (c : Int) (n : String) :
    ((createSemanticFolder st fs c n).1).root = st.root := rfl

theorem createSemanticFolder_snd_files (st : OSState) (fs : SyncFS)
    (c : Int) (n : String) :
    ((createSemanticFolder st fs c n).2).files = fs.files := by
  unfold createSemanticFolder mkdirExistOk
  dsimp only
  split <;> rfl

theorem createSemanticFolder_snd_dirs (st : OSState) (fs : SyncFS)
    (c : Int) (n : String) :
    ∀ d ∈ ((createSemanticFolder st fs c n).2).dirs,
      d ∈ fs.dirs ∨ d = st.root ++ "/" ++ sanitizeFolderName n := by
  unfold createSemanticFolder mkdirExistOk
  dsimp only
  split
  · intro d hd
    exact Or.inl hd
  · intro d hd
    rcases List.mem_append.mp hd with h | h
    · exact Or.inl h
    · simp at h
      exact Or.inr h

/-- Origin of group members: every member of every group produced by
`groupByCluster` comes from a pair of the input list (stated for an arbitrary
predicate established by the input pairs). -/
theorem groupByCluster_member_origin (P : String → Int → Prop) :
    ∀ (l : List (String × Int)) (acc : List (Int × List String)),
      (∀ g ∈ acc, ∀ q ∈ g.2, P q g.1) →
      (∀ x ∈ l, P x.1 x.2) →
      ∀ g ∈ (l.foldl (fun acc pc =>
          if (acc.lookup pc.2).isSome then
            acc.map (fun g => if g.1 == pc.2 then (g.1, g.2 ++ [pc.1]) else g)
          else acc ++ [(pc.2, [pc.1])]) acc),
        ∀ q ∈ g.2, P q g.1 := by
  intro l
  induction l with
  | nil =>
    intro acc hacc _ g hg q hq
    exact hacc g hg q hq
  | cons x xs ih =>
    intro acc hacc hl
    simp only [List.foldl_cons]
    apply ih
    · by_cases hp : ((acc.lookup x.2).isSome = true)
      · rw [if_pos hp]
        intro g hg q hq
        rcases List.mem_map.mp hg with ⟨g0, hg0, heq⟩
        by_cases hgx : g0.1 = x.2
        · have hge : g = (g0.1, g0.2 ++ [x.1]) := by
            rw [← heq]
            simp [hgx]
          rw [hge] at hq ⊢
          rcases List.mem_append.mp hq with h | h
          · exact hacc g0 hg0 q h
          · simp at h
            subst h
            simp only [hgx]
            exact hl x (by simp)
        · have hge : g = g0 := by
            rw [← heq]
            simp [hgx]
          rw [hge] at hq ⊢
          exact hacc g0 hg0 q hq
      · rw [if_neg hp]
        intro g hg q hq
        rcases List.mem_append.mp hg with h | h
        · exact hacc g h q hq
        · simp at h
          subst h
          simp at hq
          subst hq
          exact hl x (by simp)
    · intro y hy
      exact hl y (by simp [hy])

/-- Key membership in `groupByCluster`: every cluster id of the input occurs
as a group key. -/
theorem groupByCluster_mem_fst {c : Int} :
    ∀ (l : List (String × Int)) (acc : List (Int × List String)),
      (c ∈ l.map Prod.snd ∨ c ∈ acc.map Prod.fst) →
      c ∈ ((l.foldl (fun acc pc =>
          if (acc.lookup pc.2).isSome then
            acc.map (fun g => if g.1 == pc.2 then (g.1, g.2 ++ [pc.1]) else g)
          else acc ++ [(pc.2, [pc.1])]) acc).map Prod.fst) := by
  intro l
  induction l with
  | nil =>
    intro acc h
    simpa using h
  | cons x xs ih =>
    intro acc h
    simp only [List.foldl_cons]
    apply ih
    by_cases hp : ((acc.lookup x.2).isSome = true)
    · rw [if_pos hp]
      have hkeys :
          ((acc.map (fun g => if g.1 == x.2 then (g.1, g.2 ++ [x.1]) else g)).map
            Prod.fst) = acc.map Prod.fst := by
        rw [List.map_map]
        apply List.map_congr_left
        intro g _
        by_cases hgx : g.1 = x.2 <;> simp [hgx]
      rw [hkeys]
      rcases h with h | h
      · simp only [List.map_cons, List.mem_cons] at h
        rcases h with h | h
        · subst h
          exact Or.inr (lookup_isSome_mem_fst hp)
        · exact Or.inl h
      · exact Or.inr h
    · rw [if_neg hp]
      rcases h with h | h
      · simp only [List.map_cons, List.mem_cons] at h
        rcases h with h | h
        · subst h
          simp
        · exact Or.inl h
      · right
        simp [h]

/-- Generic fold lemma for the two naming passes: any fold whose step appends
exactly one entry per group, with value `Uncategorized` on key `-1`, maps
`-1` to `Uncategorized` whenever `-1` is among the group keys. -/
theorem fold_lookup_neg_one
    (step : List (Int × String) → (Int × List String) → List (Int × String))
    (hstep : ∀ acc g, ∃ nm, step acc g = acc ++ [(g.1, nm)] ∧
      (g.1 = -1 → nm = "Uncategorized")) :
    ∀ (groups : List (Int × List String)) (acc : List (Int × String)),
      ((acc.lookup (-1) = none ∧ (-1 : Int) ∈ groups.map Prod.fst) ∨
        acc.lookup (-1) = some "Uncategorized") →
      (groups.foldl step acc).lookup (-1) = some "Uncategorized" := by
  intro groups
  induction groups with
  | nil =>
    intro acc h
    rcases h with ⟨_, h⟩ | h
    · simp at h
    · simpa using h
  | cons g rest ih =>
    intro acc h
    simp only [List.foldl_cons]
    obtain ⟨nm, hs, hneg⟩ := hstep acc g
    rw [hs]
    apply ih
    rcases h with ⟨hnone, hmem⟩ | hsome
    · by_cases hg : g.1 = -1
      · right
        rw [lookup_append_none _ hnone]
        simp [List.lookup, hg, hneg hg]
      · left
        constructor
        · rw [lookup_append_none _ hnone]
          have : ((-1 : Int) == g.1) = false := by
            simpa using fun he => hg he.symm
          simp [List.lookup, this]
        · simp only [List.map_cons, List.mem_cons] at hmem
          rcases hmem with h | h
          · exact absurd h.symm hg
          · exact h
    · exact Or.inr (lookup_append_some hsome)

/-- The retention invariant of the history store: folding
`add_history_snapshot` keeps exactly the suffix that fits the 50-entry cap. -/
theorem foldl_addHistorySnapshot :
    ∀ (snaps : List HistorySnapshot) (h0 : List HistorySnapshot),
      h0.length ≤ 50 →
      snaps.foldl addHistorySnapshot h0 =
        (h0 ++ snaps).drop ((h0.length + snaps.length) - 50) := by
  intro snaps
  induction snaps with
  | nil =>
    intro h0 hlen
    have hz : h0.length - 50 = 0 := by omega
    simp [hz]
  | cons s t ih =>
    intro h0 hlen
    simp only [List.foldl_cons]
    by_cases hh : h0.length + 1 > 50
    · have h50 : h0.length = 50 := by omega
      have hadd : addHistorySnapshot h0 s = (h0 ++ [s]).drop 1 := by
        unfold addHistorySnapshot saveHistoryTrim
        rw [if_pos (by simp [h50])]
        simp [h50]
      rw [hadd]
      have hlen2 : ((h0 ++ [s]).drop 1).length ≤ 50 := by
        simp [h50]
      rw [ih _ hlen2]
      have hd : ((h0 ++ [s]).drop 1) ++ t = ((h0 ++ [s]) ++ t).drop 1 := by
        conv_rhs => rw [List.drop_append_eq_append_drop]
        simp
      rw [hd, List.drop_drop]
      have e1 : (h0 ++ [s]) ++ t = h0 ++ (s :: t) := by
        simp
      rw [e1]
      congr 1
      simp [h50]
      omega
    · have hadd : addHistorySnapshot h0 s = h0 ++ [s] := by
        unfold addHistorySnapshot saveHistoryTrim
        rw [if_neg (by simp only [List.length_append, List.length_cons,
          List.length_nil]; omega)]
      rw [hadd]
      rw [ih _ (by simp; omega)]
      have e1 : (h0 ++ [s]) ++ t = h0 ++ (s :: t) := by
        simp
      rw [e1]
      congr 1
      simp
      omega

/-! ## Claim theorems -/

/-- C8: History cap — folding `add_history_snapshot` over any snapshot
sequence from an empty history retains exactly the suffix fitting the
50-entry cap (`min(n, 50)` entries, append order preserved, newest at the
end); in particular appending 60 snapshots leaves exactly the last 50. -/
theorem c8_history_cap :
    (∀ snaps : List HistorySnapshot,
        snaps.foldl addHistorySnapshot [] =
          snaps.drop (snaps.length - 50)) ∧
    (((List.range 60).map
        (fun i => ({ timestamp := i, assignments := [], names := [] } :
          HistorySnapshot))).foldl addHistorySnapshot []).length = 50 ∧
    (((List.range 60).map
        (fun i => ({ timestamp := i, assignments := [], names := [] } :
          HistorySnapshot))).foldl addHistorySnapshot []) =
      ((List.range 60).map
        (fun i => ({ timestamp := i, assignments := [], names := [] } :
          HistorySnapshot))).drop 10 := by
  have hgen : ∀ snaps : List HistorySnapshot,
      snaps.foldl addHistorySnapshot [] = snaps.drop (snaps.length - 50) := by
    intro snaps
    have h := foldl_addHistorySnapshot snaps [] (by simp)
    simpa using h
  refine ⟨hgen, ?_, ?_⟩
  · rw [hgen]
    simp
  · rw [hgen]
    simp

/-- C9: Degenerate clustering — `cluster_files` on an empty embedding index
returns the empty mapping (and leaves the state untouched), and on a
single-entry index returns the mapping sending that identifier to cluster 0,
for every DBSCAN oracle. -/
theorem c9_degenerate_clustering :
    (∀ (dbscan : List Embedding → List Int)
        (contents : List (String × String)) (cached : List (String × Int)),
        clusterFiles dbscan ⟨[], contents, cached⟩ =
          (⟨[], contents, cached⟩, [])) ∧
    (∀ (dbscan : List Embedding → List Int)
        (contents : List (String × String)) (cached : List (String × Int))
        (fp : String) (e : Embedding),
        clusterFiles dbscan ⟨[(fp, e)], contents, cached⟩ =
          (⟨[(fp, e)], contents, [(fp, 0)]⟩, [(fp, 0)])) := by
  constructor
  · intro dbscan contents cached
    rfl
  · intro dbscan contents cached fp e
    rfl

/-- C10: an identifier absent from the state store is resolved purely by the
recursive basename search under the managed root: `resolve_current_path`
returns the first existing file under the root with the same basename, and
`None` exactly when no such file exists. -/
theorem c10_unrecorded_resolve_search :
    ∀ (sm : SMState) (fs : SyncFS) (root id : String),
      sm.files.lookup id = none →
      resolveCurrentPath sm fs root id =
        rglobFirstByName fs root (basename id) ∧
      (resolveCurrentPath sm fs root id = none ↔
        ¬ ∃ p ∈ fs.files, (isPrefixOfStr (root ++ "/") p = true ∧
          basename p = basename id)) := by
  intro sm fs root id h
  have h1 : resolveCurrentPath sm fs root id =
      rglobFirstByName fs root (basename id) := by
    unfold resolveCurrentPath
    rw [h]
  refine ⟨h1, ?_⟩
  rw [h1]
  unfold rglobFirstByName
  rw [List.head?_eq_none_iff, List.filter_eq_nil_iff]
  simp

/-- Witness for C10: an unrecorded identifier `root/a.txt` resolves to the
first basename match `root/sub/a.txt`. -/
theorem c10_unrecorded_resolve_search_witness :
    resolveCurrentPath ⟨[]⟩ ⟨["root/sub/a.txt"], []⟩ "root" "root/a.txt"
      = some "root/sub/a.txt" := by
  have h := c10_unrecorded_resolve_search ⟨[]⟩ ⟨["root/sub/a.txt"], []⟩
    "root" "root/a.txt" rfl
  rw [h.1]
  decide

/-- C2 counterexample: a file exists at the literal identifier path
`outside/a.txt` (outside the managed root), the identifier is not in the
store, yet `resolve_current_path` returns `None` — step (b) of the claimed
strategy is never attempted for unrecorded identifiers, so "not found only
if all three fail" is false as stated. -/
theorem c2_literal_path_skipped_when_unrecorded :
    pathExists ⟨["outside/a.txt"], []⟩ "outside/a.txt" = true ∧
    resolveCurrentPath ⟨[]⟩ ⟨["outside/a.txt"], []⟩ "root" "outside/a.txt"
      = none := by
  constructor
  · decide
  · decide

/-- C2 corrected: for an identifier recorded in the store the three steps
run in the claimed order — (a) the recorded `current_path` if it exists, (b)
the literal identifier path if it exists, (c) the recursive basename search
— while an unrecorded identifier skips (a) and (b) and goes straight to the
search; and in the concrete motion scenario, after the synchronizer moves
`root/a.txt` to `root/Topic_X/a.txt` and the coordinator persists the
result, `resolve_current_path "root/a.txt"` returns
`root/Topic_X/a.txt`. -/
theorem c2_amended_resolve_order :
    (∀ (sm : SMState) (fs : SyncFS) (root id : String) (fd : FileRec),
        sm.files.lookup id = some fd →
        pathExists fs (fd.currentPath.getD id) = true →
        resolveCurrentPath sm fs root id = some (fd.currentPath.getD id)) ∧
    (∀ (sm : SMState) (fs : SyncFS) (root id : String) (fd : FileRec),
        sm.files.lookup id = some fd →
        pathExists fs (fd.currentPath.getD id) = false →
        pathExists fs id = true →
        resolveCurrentPath sm fs root id = some id) ∧
    (∀ (sm : SMState) (fs : SyncFS) (root id : String) (fd : FileRec),
        sm.files.lookup id = some fd →
        pathExists fs (fd.currentPath.getD id) = false →
        pathExists fs id = false →
        resolveCurrentPath sm fs root id =
          rglobFirstByName fs root (basename id)) ∧
    (∀ (sm : SMState) (fs : SyncFS) (root id : String),
        sm.files.lookup id = none →
        resolveCurrentPath sm fs root id =
          rglobFirstByName fs root (basename id)) ∧
    ((let r := syncClusters ⟨"root", [], []⟩ ⟨["root/a.txt"], []⟩
        [("root/a.txt", 0)] [(0, "Topic_X")]
      resolveCurrentPath
        (reorganizePersist ⟨[]⟩ [("root/a.txt", 0)] r.moved []) r.fs
        "root" "root/a.txt") = some "root/Topic_X/a.txt") := by
  refine ⟨?_, ?_, ?_, ?_, ?_⟩
  · intro sm fs root id fd h hcp
    unfold resolveCurrentPath
    rw [h]
    simp [hcp]
  · intro sm fs root id fd h hcp hid
    unfold resolveCurrentPath
    rw [h]
    simp [hcp, hid]
  · intro sm fs root id fd h hcp hid
    unfold resolveCurrentPath
    rw [h]
    simp [hcp, hid]
  · intro sm fs root id h
    unfold resolveCurrentPath
    rw [h]
  · decide

/-- Witness for C2 (corrected): step (a) fires on a concrete recorded state
whose `current_path` exists on disk. -/
theorem c2_amended_resolve_order_witness :
    resolveCurrentPath ⟨[("root/a.txt", ⟨0, "", some "root/Topic_X/a.txt"⟩)]⟩
      ⟨["root/Topic_X/a.txt"], ["root/Topic_X"]⟩ "root" "root/a.txt"
      = some "root/Topic_X/a.txt" := by
  exact c2_amended_resolve_order.1
    ⟨[("root/a.txt", ⟨0, "", some "root/Topic_X/a.txt"⟩)]⟩
    ⟨["root/Topic_X/a.txt"], ["root/Topic_X"]⟩ "root" "root/a.txt"
    ⟨0, "", some "root/Topic_X/a.txt"⟩ (by decide) (by decide)

/-- C3: the claim's intent (path-segment-aware cascade removal) holds for
anchored (absolute) directory paths, but `remove_directory` crashes on the
claim's own relative inputs: with `root/dir/a.txt`, `root/dir/b.txt` and
`root/dirOther/c.txt` indexed, `remove_directory "root/dir"` raises
`IndexError` (the empty anchor of a relative `Path` makes `anchor[-1]` fail)
before removing anything, while the absolute variant removes exactly the two
files under `/root/dir` and leaves `/root/dirOther/c.txt` untouched. -/
theorem c3_remove_directory_relative_raises :
    removeDirectory
      ⟨[("root/dir/a.txt", [1]), ("root/dir/b.txt", [1]),
        ("root/dirOther/c.txt", [1])], [], []⟩ "root/dir" = none ∧
    (removeDirectory
      ⟨[("/root/dir/a.txt", [1]), ("/root/dir/b.txt", [1]),
        ("/root/dirOther/c.txt", [1])], [], []⟩ "/root/dir").map
      (fun e => e.fileEmbeddings.map Prod.fst)
      = some ["/root/dirOther/c.txt"] := by
  constructor
  · rfl
  · rfl

/-- The folder-name dictionary after the sync fold maps `-1` to
`Uncategorized` whenever `-1` is among the remaining group keys (or already
mapped so). -/
theorem sync_fold_folderNames (names : List (Int × String)) :
    ∀ (groups : List (Int × List String)) (acc : SyncResult),
      (acc.st.folderNames.lookup (-1) = some "Uncategorized" ∨
        (-1 : Int) ∈ groups.map Prod.fst) →
      (((groups.foldl (fun a g => syncGroupStep a g names) acc).st.folderNames).lookup
          (-1)) = some "Uncategorized" := by
  intro groups
  induction groups with
  | nil =>
    intro acc h
    rcases h with h | h
    · simpa using h
    · simp at h
  | cons g rest ih =>
    intro acc h
    simp only [List.foldl_cons]
    apply ih
    have hstep : (syncGroupStep acc g names).st.folderNames =
        setAssoc acc.st.folderNames g.1
          (sanitizeFolderName (chooseFolderName names g.1)) := rfl
    by_cases hg : g.1 = -1
    · left
      rw [hstep, hg]
      have hu : sanitizeFolderName (chooseFolderName names (-1))
          = "Uncategorized" := rfl
      rw [hu]
      exact lookup_setAssoc_self _ _ _
    · rcases h with h | h
      · left
        rw [hstep]
        rw [lookup_setAssoc_ne _ _ _ _ (fun he => hg he.symm)]
        exact h
      · simp only [List.map_cons, List.mem_cons] at h
        rcases h with h | h
        · exact absurd h.symm hg
        · exact Or.inr h

/-- C7: Reserved noise label — whenever some identifier is assigned cluster
`-1`, the namer's AI path, the namer's fallback path, and the synchronizer's
folder registry all give cluster `-1` the fixed label `Uncategorized`, for
every naming oracle and every supplied name map (so `-1` never receives a
generated name). -/
theorem c7_noise_label_reserved :
    ∀ (kick : Int → List String → String)
      (tf : List String → Option (List String)) (a : List (String × Int))
      (contents : List (String × String)) (st : OSState) (fs : SyncFS)
      (names : List (Int × String)),
      ((-1 : Int) ∈ a.map Prod.snd) →
      (generateNames true kick tf a contents).lookup (-1)
          = some "Uncategorized" ∧
      (generateNames false kick tf a contents).lookup (-1)
          = some "Uncategorized" ∧
      (fallbackNaming tf a contents).lookup (-1) = some "Uncategorized" ∧
      ((syncClusters st fs a names).st.folderNames).lookup (-1)
          = some "Uncategorized" := by
  intro kick tf a contents st fs names hmem
  have hkeys : (-1 : Int) ∈ (groupByCluster a).map Prod.fst := by
    exact groupByCluster_mem_fst a [] (Or.inl hmem)
  have hai : (generateNames true kick tf a contents).lookup (-1)
      = some "Uncategorized" := by
    show (((groupByCluster a).foldl (aiNameStep kick contents) []).lookup
      (-1)) = some "Uncategorized"
    apply fold_lookup_neg_one (aiNameStep kick contents)
      (fun acc g => ⟨aiNameOf kick contents g, rfl, fun hg => by
        simp [aiNameOf, hg]⟩)
    exact Or.inl ⟨rfl, hkeys⟩
  have hfb : (fallbackNaming tf a contents).lookup (-1)
      = some "Uncategorized" := by
    show (((groupByCluster a).foldl (fallbackNameStep tf contents) []).lookup
      (-1)) = some "Uncategorized"
    apply fold_lookup_neg_one (fallbackNameStep tf contents)
      (fun acc g => ⟨fallbackNameOf tf contents g, rfl, fun hg => by
        simp [fallbackNameOf, hg]⟩)
    exact Or.inl ⟨rfl, hkeys⟩
  refine ⟨hai, hfb, hfb, ?_⟩
  show ((((groupByCluster a).foldl (fun acc g => syncGroupStep acc g names)
    ⟨st, fs, [], 0⟩).st.folderNames).lookup (-1)) = some "Uncategorized"
  exact sync_fold_folderNames names (groupByCluster a) ⟨st, fs, [], 0⟩
    (Or.inr hkeys)

/-- Witness for C7 at a concrete one-file noise assignment with adversarial
oracles and a name map that tries to rename `-1`. -/
theorem c7_noise_label_reserved_witness :
    (generateNames true (fun _ _ => "Junk Name") (fun _ => some ["junk"])
        [("root/a.txt", -1)] []).lookup (-1) = some "Uncategorized" ∧
    ((syncClusters ⟨"root", [], []⟩ ⟨["root/a.txt"], []⟩ [("root/a.txt", -1)]
        [(-1, "Evil")]).st.folderNames).lookup (-1)
      = some "Uncategorized" := by
  have h := c7_noise_label_reserved (fun _ _ => "Junk Name")
    (fun _ => some ["junk"]) [("root/a.txt", -1)] [] ⟨"root", [], []⟩
    ⟨["root/a.txt"], []⟩ [(-1, "Evil")] (by decide)
  exact ⟨h.1, h.2.2.2⟩

/-- C6: Transition rule — a `process_events` tick runs the full
reorganization pass exactly when the drained batch contains at least one
`modified`, `deleted` or `directory_deleted` event; in particular a
pure-`created` batch (or an empty one) leaves the state store, history,
filesystem, folder registry and cluster names untouched. -/
theorem c6_transition_rule :
    ∀ (encode : String → Embedding) (extract : String → String)
      (dbscan : List Embedding → List Int) (ai : Bool)
      (kick : Int → List String → String)
      (tf : List String → Option (List String)) (hcb : Bool) (ts : Nat)
      (s : SysState) (events : List (EventKind × String))
      (res : ProcessResult),
      processEvents encode extract dbscan ai kick tf hcb ts s events
        = some res →
      (res.didReorganize = true ↔ ∃ e ∈ events, isMutatingEvent e.1 = true) ∧
      (res.didReorganize = false →
        res.state.sm = s.sm ∧ res.state.history = s.history ∧
        res.state.fs = s.fs ∧ res.state.os = s.os ∧
        res.state.clusterNames = s.clusterNames) := by
  intro encode extract dbscan ai kick tf hcb ts s events res h
  unfold processEvents at h
  by_cases he : events.isEmpty = true
  · rw [if_pos he] at h
    have hev : events = [] := List.isEmpty_iff.mp he
    subst hev
    injection h with h
    subst h
    constructor
    · simp
    · intro _
      exact ⟨rfl, rfl, rfl, rfl, rfl⟩
  · rw [if_neg he] at h
    cases hidx : indexEvents encode extract s.engine events with
    | none =>
      rw [hidx] at h
      simp at h
    | some r =>
      rw [hidx] at h
      simp only [Option.map_some'] at h
      injection h with h
      subst h
      by_cases hany : events.any (fun e => isMutatingEvent e.1) = true
      · constructor
        · simp only [if_pos hany]
          constructor
          · intro _
            simpa using List.any_eq_true.mp hany
          · intro _
            trivial
        · simp only [if_pos hany]
          intro hcontra
          exact absurd hcontra (by simp)
      · constructor
        · simp only [if_neg hany]
          constructor
          · intro hcontra
            exact absurd hcontra (by simp)
          · intro hex
            exact absurd (List.any_eq_true.mpr (by simpa using hex)) hany
        · simp only [if_neg hany]
          intro _
          exact ⟨trivial, trivial, trivial, trivial, trivial⟩

/-- Witness for C6: a one-event `deleted` batch on an empty system triggers
the reorganization branch. -/
theorem c6_transition_rule_witness :
    (processEvents (fun _ => ([] : Embedding)) (fun _ => "") (fun _ => [])
        false (fun _ _ => "") (fun _ => none) false 0
        ⟨⟨[], [], []⟩, ⟨"root", [], []⟩, ⟨[], []⟩, ⟨[]⟩, [], []⟩
        [(EventKind.deleted, "root/x.txt")]).map
      (fun r => r.didReorganize) = some true := by
  have heq : processEvents (fun _ => ([] : Embedding)) (fun _ => "")
      (fun _ => []) false (fun _ _ => "") (fun _ => none) false 0
      ⟨⟨[], [], []⟩, ⟨"root", [], []⟩, ⟨[], []⟩, ⟨[]⟩, [], []⟩
      [(EventKind.deleted, "root/x.txt")]
      = some ⟨⟨⟨[], [], []⟩, ⟨"root", [], []⟩, ⟨[], []⟩, ⟨[]⟩, [], []⟩,
          [], none, true, true⟩ := by
    rfl
  have h := (c6_transition_rule (fun _ => ([] : Embedding)) (fun _ => "")
    (fun _ => []) false (fun _ _ => "") (fun _ => none) false 0
    ⟨⟨[], [], []⟩, ⟨"root", [], []⟩, ⟨[], []⟩, ⟨[]⟩, [], []⟩
    [(EventKind.deleted, "root/x.txt")] _ heq).1.mpr
    ⟨(EventKind.deleted, "root/x.txt"), by simp, rfl⟩
  rw [heq]
  simp only [Option.map_some', h]

/-- The `new_files` list collected by the event loop is exactly the
`created` events, in order, as `(path, name)` pairs. -/
theorem indexEvents_newFiles (encode : String → Embedding)
    (extract : String → String) :
    ∀ (events : List (EventKind × String)) (eng : EngineState)
      (nf : List (String × String)) (r : EngineState × List (String × String)),
      List.foldlM (indexEventStep encode extract) (eng, nf) events = some r →
      r.2 = nf ++ (events.filter (fun e => e.1 == EventKind.created)).map
        (fun e => (e.2, basename e.2)) := by
  intro events
  induction events with
  | nil =>
    intro eng nf r h
    simp only [List.foldlM_nil] at h
    injection h with h
    subst h
    simp
  | cons ev rest ih =>
    intro eng nf r h
    simp only [List.foldlM_cons] at h
    obtain ⟨evk, evp⟩ := ev
    cases evk with
    | created =>
      simp only [indexEventStep, Option.some_bind] at h
      have := ih eng (nf ++ [(evp, basename evp)]) r h
      rw [this]
      simp [List.filter_cons]
    | modified =>
      simp only [indexEventStep, Option.some_bind] at h
      have := ih _ nf r h
      rw [this]
      simp [List.filter_cons]
    | deleted =>
      simp only [indexEventStep, Option.some_bind] at h
      have := ih _ nf r h
      rw [this]
      simp [List.filter_cons]
    | directoryDeleted =>
      simp only [indexEventStep] at h
      cases hrd : removeDirectory eng evp with
      | none =>
        rw [hrd] at h
        simp at h
      | some e2 =>
        rw [hrd] at h
        simp only [Option.map_some', Option.some_bind] at h
        have := ih e2 nf r h
        rw [this]
        simp [List.filter_cons]

/-- The engine state produced by the event loop is unchanged by `created`
events: it equals the engine produced by the loop run on the batch with the
`created` events filtered out (whatever pending accumulators are used). -/
theorem indexEvents_engine_skips_created (encode : String → Embedding)
    (extract : String → String) :
    ∀ (events : List (EventKind × String)) (eng : EngineState)
      (nf nf2 : List (String × String)),
      (List.foldlM (indexEventStep encode extract) (eng, nf) events).map
          Prod.fst =
        (List.foldlM (indexEventStep encode extract) (eng, nf2)
          (events.filter (fun e => e.1 != EventKind.created))).map
          Prod.fst := by
  intro events
  induction events with
  | nil =>
    intro eng nf nf2
    simp
  | cons ev rest ih =>
    intro eng nf nf2
    obtain ⟨evk, evp⟩ := ev
    cases evk with
    | created =>
      simp only [List.foldlM_cons, indexEventStep, Option.some_bind,
        List.filter_cons]
      exact ih eng (nf ++ [(evp, basename evp)]) nf2
    | modified =>
      simp only [List.foldlM_cons, indexEventStep, Option.some_bind,
        List.filter_cons]
      exact ih _ nf nf2
    | deleted =>
      simp only [List.foldlM_cons, indexEventStep, Option.some_bind,
        List.filter_cons]
      exact ih _ nf nf2
    | directoryDeleted =>
      cases hrd : removeDirectory eng evp with
      | none => simp [List.foldlM_cons, indexEventStep, hrd]
      | some e2 =>
        simp only [List.foldlM_cons, indexEventStep, hrd, List.filter_cons,
          bne_self_eq_false, Option.map_some', Option.some_bind]
        simp only [show ((EventKind.directoryDeleted != EventKind.created)
          = true) from rfl, if_true]
        simp only [List.foldlM_cons, indexEventStep, hrd, Option.map_some',
          Option.some_bind]
        exact ih e2 nf nf2

/-- C4 counterexample: a batch holding one `created` event for
`root/new.txt`, with an extractor returning indexable content, leaves the
embedding index untouched (the file is not indexed during that tick) while
the callback payload does carry the new file; the same oracles would have
indexed the file had it been processed like a `modified` one. -/
theorem c4_created_not_indexed_same_tick :
    processEvents (fun _ => ([1] : Embedding))
      (fun _ => "plenty of content here") (fun _ => []) false (fun _ _ => "")
      (fun _ => none) true 0
      ⟨⟨[], [], []⟩, ⟨"root", [], []⟩, ⟨[], []⟩, ⟨[]⟩, [], []⟩
      [(EventKind.created, "root/new.txt")]
      = some ⟨⟨⟨[], [], []⟩, ⟨"root", [], []⟩, ⟨[], []⟩, ⟨[]⟩, [], []⟩,
          [("root/new.txt", "new.txt")], some [("root/new.txt", "new.txt")],
          false, true⟩ ∧
    ((processFileStep (fun _ => ([1] : Embedding))
        (fun _ => "plenty of content here") ⟨[], [], []⟩
        "root/new.txt").fileEmbeddings.lookup "root/new.txt").isSome
      = true := by
  constructor
  · rfl
  · rfl

/-- C4 corrected: `created` events are surfaced to the notification hook
(the `new_files` payload is exactly the created events of the batch) but are
NOT indexed during that tick — the engine state after the event loop equals
the one obtained with every `created` event removed from the batch; only
`modified` events are extracted and indexed immediately. -/
theorem c4_amended_created_surfaced_not_indexed :
    ∀ (encode : String → Embedding) (extract : String → String)
      (dbscan : List Embedding → List Int) (ai : Bool)
      (kick : Int → List String → String)
      (tf : List String → Option (List String)) (hcb : Bool) (ts : Nat)
      (s : SysState) (events : List (EventKind × String))
      (res : ProcessResult),
      processEvents encode extract dbscan ai kick tf hcb ts s events
        = some res →
      (res.newFiles = (events.filter (fun e => e.1 == EventKind.created)).map
        (fun e => (e.2, basename e.2))) ∧
      (res.callbackPayload =
        if !res.newFiles.isEmpty && hcb then some res.newFiles else none) ∧
      ((indexEvents encode extract s.engine events).map Prod.fst =
        (indexEvents encode extract s.engine
          (events.filter (fun e => e.1 != EventKind.created))).map
          Prod.fst) := by
  intro encode extract dbscan ai kick tf hcb ts s events res h
  refine ⟨?_, ?_, ?_⟩
  · unfold processEvents at h
    by_cases he : events.isEmpty = true
    · rw [if_pos he] at h
      have hev : events = [] := List.isEmpty_iff.mp he
      subst hev
      injection h with h
      subst h
      rfl
    · rw [if_neg he] at h
      cases hidx : indexEvents encode extract s.engine events with
      | none =>
        rw [hidx] at h
        simp at h
      | some r =>
        rw [hidx] at h
        simp only [Option.map_some'] at h
        injection h with h
        subst h
        have hr := indexEvents_newFiles encode extract events s.engine [] r
          hidx
        by_cases hany : events.any (fun e => isMutatingEvent e.1) = true
        · simp only [if_pos hany]
          simpa using hr
        · simp only [if_neg hany]
          simpa using hr
  · unfold processEvents at h
    by_cases he : events.isEmpty = true
    · rw [if_pos he] at h
      injection h with h
      subst h
      rfl
    · rw [if_neg he] at h
      cases hidx : indexEvents encode extract s.engine events with
      | none =>
        rw [hidx] at h
        simp at h
      | some r =>
        rw [hidx] at h
        simp only [Option.map_some'] at h
        injection h with h
        subst h
        by_cases hany : events.any (fun e => isMutatingEvent e.1) = true
        · simp only [if_pos hany]
        · simp only [if_neg hany]
  · exact indexEvents_engine_skips_created encode extract events s.engine
      [] []

/-- Witness for C4 (corrected): a mixed `created`/`deleted` batch surfaces
exactly its created file. -/
theorem c4_amended_created_surfaced_not_indexed_witness :
    (processEvents (fun _ => ([1] : Embedding)) (fun _ => "long enough text")
        (fun _ => []) false (fun _ _ => "") (fun _ => none) false 3
        ⟨⟨[], [], []⟩, ⟨"root", [], []⟩, ⟨[], []⟩, ⟨[]⟩, [], []⟩
        [(EventKind.created, "root/b.txt"),
         (EventKind.deleted, "root/c.txt")]).map (fun r => r.newFiles)
      = some [("root/b.txt", "b.txt")] := by
  have heq : processEvents (fun _ => ([1] : Embedding))
      (fun _ => "long enough text") (fun _ => []) false (fun _ _ => "")
      (fun _ => none) false 3
      ⟨⟨[], [], []⟩, ⟨"root", [], []⟩, ⟨[], []⟩, ⟨[]⟩, [], []⟩
      [(EventKind.created, "root/b.txt"), (EventKind.deleted, "root/c.txt")]
      = some ⟨⟨⟨[], [], []⟩, ⟨"root", [], []⟩, ⟨[], []⟩, ⟨[]⟩, [], []⟩,
          [("root/b.txt", "b.txt")], none, true, true⟩ := by
    rfl
  have h := (c4_amended_created_surfaced_not_indexed
    (fun _ => ([1] : Embedding)) (fun _ => "long enough text") (fun _ => [])
    false (fun _ _ => "") (fun _ => none) false 3
    ⟨⟨[], [], []⟩, ⟨"root", [], []⟩, ⟨[], []⟩, ⟨[]⟩, [], []⟩
    [(EventKind.created, "root/b.txt"), (EventKind.deleted, "root/c.txt")]
    _ heq).1
  rw [heq]
  simp only [Option.map_some', h]

/-- The persisting loop leaves a key alone when it does not occur in the
assignment list. -/
theorem reorganizePersist_lookup_skip :
    ∀ (a : List (String × Int)) (sm : SMState)
      (moved : List (String × String)) (contents : List (String × String))
      (badId : String),
      badId ∉ a.map Prod.fst →
      ((reorganizePersist sm a moved contents).files.lookup badId)
        = sm.files.lookup badId := by
  intro a
  induction a with
  | nil =>
    intro sm moved contents badId _
    rfl
  | cons x rest ih =>
    intro sm moved contents badId hnm
    simp only [List.map_cons, List.mem_cons, not_or] at hnm
    have hstep : reorganizePersist sm (x :: rest) moved contents =
        reorganizePersist
          (updateFile sm x.1 x.2 ((contents.lookup x.1).getD "")
            (some ((moved.lookup x.1).getD x.1))) rest moved contents := rfl
    rw [hstep, ih _ moved contents badId hnm.2]
    exact lookup_setAssoc_ne _ _ _ _ hnm.1

/-- C5 counterexample: the file `root/a.txt` was previously recorded at
`root/Topic/a.txt`; in the next sync its move fails (the identifier path no
longer exists on disk), so `moved_files` is empty — and the coordinator's
persist step then overwrites the recorded location with the identifier path
`root/a.txt`, so the previously recorded location is NOT left unchanged. -/
theorem c5_failed_move_overwrites_recorded_path :
    (syncClusters ⟨"root", [], []⟩ ⟨["root/Topic/a.txt"], ["root/Topic"]⟩
      [("root/a.txt", 0)] [(0, "Topic")]).moved = [] ∧
    ((reorganizePersist ⟨[("root/a.txt", ⟨0, "p", some "root/Topic/a.txt"⟩)]⟩
      [("root/a.txt", 0)]
      (syncClusters ⟨"root", [], []⟩ ⟨["root/Topic/a.txt"], ["root/Topic"]⟩
        [("root/a.txt", 0)] [(0, "Topic")]).moved []).files.lookup
      "root/a.txt") = some ⟨0, "", some "root/a.txt"⟩ ∧
    ("root/a.txt" : String) ≠ "root/Topic/a.txt" := by
  refine ⟨rfl, rfl, by decide⟩

/-- C5 corrected: a failed move is skipped without aborting the batch — a
missing source makes `move_file` return `None` with the filesystem
untouched, so the remaining files are processed against an unchanged state —
and the failed file gets no `moved_files` entry; the coordinator's persist
step then records the identifier path itself as the file's `current_path`
(the `moved_files.get(file_path, file_path)` fallback), replacing whatever
location was previously recorded.  A concrete batch shows the file after the
failed one still being moved. -/
theorem c5_amended_skip_and_continue :
    (∀ (st : OSState) (fs : SyncFS) (p : String) (c : Int),
        pathExists fs p = false → moveFile st fs p c = (fs, none, false)) ∧
    (∀ (sm : SMState) (a : List (String × Int))
        (moved : List (String × String)) (contents : List (String × String))
        (badId : String) (c : Int),
        (badId, c) ∈ a → moved.lookup badId = none →
        (a.map Prod.fst).Nodup →
        ((reorganizePersist sm a moved contents).files.lookup badId)
          = some ⟨c, (contents.lookup badId).getD "", some badId⟩) ∧
    ((syncClusters ⟨"root", [], []⟩ ⟨["root/b.txt"], []⟩
        [("root/missing.txt", 0), ("root/b.txt", 0)] [(0, "Topic")]).moved
      = [("root/b.txt", "root/Topic/b.txt")] ∧
     (syncClusters ⟨"root", [], []⟩ ⟨["root/b.txt"], []⟩
        [("root/missing.txt", 0), ("root/b.txt", 0)] [(0, "Topic")]).moveCount
      = 1) := by
  refine ⟨?_, ?_, rfl, rfl⟩
  · intro st fs p c h
    simp [moveFile, h]
  · intro sm a moved contents badId c hmem hmoved hnodup
    induction a generalizing sm with
    | nil => simp at hmem
    | cons x rest ih =>
      have hstep : reorganizePersist sm (x :: rest) moved contents =
          reorganizePersist
            (updateFile sm x.1 x.2 ((contents.lookup x.1).getD "")
              (some ((moved.lookup x.1).getD x.1))) rest moved contents := rfl
      simp only [List.map_cons, List.nodup_cons] at hnodup
      by_cases hx : badId = x.1
      · have hrest : badId ∉ rest.map Prod.fst := by
          rw [hx]
          exact hnodup.1
        rw [hstep, reorganizePersist_lookup_skip rest _ moved contents badId
          hrest]
        have hxc : x = (badId, c) := by
          rcases List.mem_cons.mp hmem with h | h
          · exact h.symm
          · exact absurd (hx ▸ List.mem_map_of_mem Prod.fst h) hnodup.1
        subst hxc
        simp only [updateFile]
        rw [hmoved]
        simp only [Option.getD_none, Option.getD_some, ite_self]
        exact lookup_setAssoc_self _ _ _
      · have hmem2 : (badId, c) ∈ rest := by
          rcases List.mem_cons.mp hmem with h | h
          · exact absurd (congrArg Prod.fst h) hx
          · exact h
        rw [hstep]
        exact ih _ hmem2 hnodup.2

/-- Witness for C5 (corrected): the persist step records the identifier as
`current_path` for a file with no `moved_files` entry. -/
theorem c5_amended_skip_and_continue_witness :
    ((reorganizePersist ⟨[]⟩ [("root/x.txt", 2)] []
      [("root/x.txt", "prev")]).files.lookup "root/x.txt")
      = some ⟨2, "prev", some "root/x.txt"⟩ := by
  exact c5_amended_skip_and_continue.2.1 ⟨[]⟩ [("root/x.txt", 2)] []
    [("root/x.txt", "prev")] "root/x.txt" 2 (by simp) rfl (by simp)

/-- A run of member moves whose sources all fail the existence check is a
complete no-op. -/
theorem moveFold_noop (st2 : OSState) (c : Int) :
    ∀ (ps : List String) (fs2 : SyncFS) (m : List (String × String))
      (k : Nat),
      (∀ q ∈ ps, pathExists fs2 q = false) →
      ps.foldl (moveStep st2 c) (fs2, m, k) = (fs2, m, k) := by
  intro ps
  induction ps with
  | nil =>
    intro fs2 m k _
    rfl
  | cons q rest ih =>
    intro fs2 m k hq
    have hm := moveFile_not_exists st2 fs2 q c (hq q (by simp))
    simp only [List.foldl_cons, moveStep, hm]
    exact ih fs2 m k (fun p hp => hq p (by simp [hp]))

/-- Invariant of the cluster-group fold when every assigned identifier is
absent from the starting files, the starting directories, and the folder
paths this sync can create: files, `moved_files` and the move counter stay
untouched, directories stay inside the allowed set, and the root is
preserved. -/
theorem sync_fold_noop (names : List (Int × String)) (files0 dirs0 : List String)
    (FP : List String) (root0 : String) :
    ∀ (groups : List (Int × List String)) (acc : SyncResult),
      acc.fs.files = files0 →
      (∀ d ∈ acc.fs.dirs, d ∈ dirs0 ∨ d ∈ FP) →
      (∀ g ∈ groups,
        (root0 ++ "/" ++ sanitizeFolderName (chooseFolderName names g.1))
          ∈ FP) →
      (∀ g ∈ groups, ∀ q ∈ g.2, q ∉ files0 ∧ q ∉ dirs0 ∧ q ∉ FP) →
      acc.st.root = root0 →
      ((groups.foldl (fun a g => syncGroupStep a g names) acc).fs.files
          = files0) ∧
      (∀ d ∈ (groups.foldl (fun a g => syncGroupStep a g names) acc).fs.dirs,
          d ∈ dirs0 ∨ d ∈ FP) ∧
      ((groups.foldl (fun a g => syncGroupStep a g names) acc).moved
          = acc.moved) ∧
      ((groups.foldl (fun a g => syncGroupStep a g names) acc).moveCount
          = acc.moveCount) ∧
      ((groups.foldl (fun a g => syncGroupStep a g names) acc).st.root
          = root0) := by
  intro groups
  induction groups with
  | nil =>
    intro acc hfiles hdirs _ _ hroot
    exact ⟨hfiles, hdirs, rfl, rfl, hroot⟩
  | cons g rest ih =>
    intro acc hfiles hdirs hFP hmem hroot
    simp only [List.foldl_cons]
    have hcf_files :
        ((createSemanticFolder acc.st acc.fs g.1
          (chooseFolderName names g.1)).2).files = acc.fs.files :=
      createSemanticFolder_snd_files _ _ _ _
    have hcf_dirs := createSemanticFolder_snd_dirs acc.st acc.fs g.1
      (chooseFolderName names g.1)
    have hdirs2 : ∀ d ∈ ((createSemanticFolder acc.st acc.fs g.1
        (chooseFolderName names g.1)).2).dirs, d ∈ dirs0 ∨ d ∈ FP := by
      intro d hd
      rcases hcf_dirs d hd with h | h
      · exact hdirs d h
      · right
        rw [h, hroot]
        exact hFP g (by simp)
    have hnoex : ∀ q ∈ g.2,
        pathExists ((createSemanticFolder acc.st acc.fs g.1
          (chooseFolderName names g.1)).2) q = false := by
      intro q hq
      obtain ⟨h1, h2, h3⟩ := hmem g (by simp) q hq
      apply pathExists_eq_false
      · rw [hcf_files, hfiles]
        exact h1
      · intro hcontra
        rcases hdirs2 q hcontra with h | h
        · exact h2 h
        · exact h3 h
    have hstep : syncGroupStep acc g names =
        ⟨(createSemanticFolder acc.st acc.fs g.1
            (chooseFolderName names g.1)).1,
          (createSemanticFolder acc.st acc.fs g.1
            (chooseFolderName names g.1)).2,
          acc.moved, acc.moveCount⟩ := by
      unfold syncGroupStep
      dsimp only
      rw [moveFold_noop _ _ _ _ _ _ hnoex]
    rw [hstep]
    exact ih _ (by rw [hcf_files, hfiles]) hdirs2
      (fun g2 hg2 => hFP g2 (by simp [hg2]))
      (fun g2 hg2 => hmem g2 (by simp [hg2]))
      (by rw [createSemanticFolder_fst_root, hroot])

/-- C1 counterexample: with `root/Topic_X/a.txt` already in its cluster
folder, two sync calls in a row perform zero physical moves, but the second
call's returned `moved_files` map is NOT empty — the already-correctly-placed
file is recorded under its unchanged path (`move_file` returns the
destination string for a no-op, and `sync_clusters` records every truthy
return). -/
theorem c1_second_sync_map_nonempty :
    ((syncClusters
        (syncClusters ⟨"root", [], []⟩
          ⟨["root/Topic_X/a.txt"], ["root/Topic_X"]⟩
          [("root/Topic_X/a.txt", 1)] [(1, "Topic_X")]).st
        (syncClusters ⟨"root", [], []⟩
          ⟨["root/Topic_X/a.txt"], ["root/Topic_X"]⟩
          [("root/Topic_X/a.txt", 1)] [(1, "Topic_X")]).fs
        [("root/Topic_X/a.txt", 1)] [(1, "Topic_X")]).moved
      = [("root/Topic_X/a.txt", "root/Topic_X/a.txt")]) ∧
    ((syncClusters
        (syncClusters ⟨"root", [], []⟩
          ⟨["root/Topic_X/a.txt"], ["root/Topic_X"]⟩
          [("root/Topic_X/a.txt", 1)] [(1, "Topic_X")]).st
        (syncClusters ⟨"root", [], []⟩
          ⟨["root/Topic_X/a.txt"], ["root/Topic_X"]⟩
          [("root/Topic_X/a.txt", 1)] [(1, "Topic_X")]).fs
        [("root/Topic_X/a.txt", 1)] [(1, "Topic_X")]).moveCount = 0) := by
  exact ⟨rfl, rfl⟩

/-- C1 corrected: the second sync call performs zero physical moves and
returns an empty `moved_files` map whenever no assigned identifier still
exists on disk after the first call (the normal outcome: every file was
moved away from its identifier path) and no identifier collides with a
folder path of the sync; without that proviso the returned map can contain
no-op entries for files already in place — it is not empty in general — and
files stay where they are. -/
theorem c1_amended_second_sync_noop :
    ∀ (st : OSState) (fs : SyncFS) (a : List (String × Int))
      (names : List (Int × String)),
      (∀ p c, (p, c) ∈ a → p ∉ fs.files ∧ p ∉ fs.dirs ∧
        p ∉ syncFolderPaths st.root a names) →
      (syncClusters st fs a names).moved = [] ∧
      (syncClusters st fs a names).moveCount = 0 ∧
      (syncClusters st fs a names).fs.files = fs.files := by
  intro st fs a names h
  have horigin : ∀ g ∈ groupByCluster a, ∀ q ∈ g.2,
      q ∉ fs.files ∧ q ∉ fs.dirs ∧ q ∉ syncFolderPaths st.root a names :=
    groupByCluster_member_origin
      (fun q c => q ∉ fs.files ∧ q ∉ fs.dirs ∧
        q ∉ syncFolderPaths st.root a names)
      a [] (by intro g hg; simp at hg) (fun x hx => h x.1 x.2 hx)
  have hFP : ∀ g ∈ groupByCluster a,
      (st.root ++ "/" ++ sanitizeFolderName (chooseFolderName names g.1))
        ∈ syncFolderPaths st.root a names := by
    intro g hg
    exact List.mem_map_of_mem _ hg
  have hfold := sync_fold_noop names fs.files fs.dirs
    (syncFolderPaths st.root a names) st.root (groupByCluster a)
    ⟨st, fs, [], 0⟩ rfl (fun d hd => Or.inl hd) hFP horigin rfl
  unfold syncClusters
  exact ⟨hfold.2.2.1, hfold.2.2.2.1, hfold.1⟩

/-- Witness for C1 (corrected): the state right after a first sync that
moved `root/a.txt` into `root/Topic_X/` — a second call with the same
arguments moves nothing and returns the empty map. -/
theorem c1_amended_second_sync_noop_witness :
    (syncClusters ⟨"root", [(1, "root/Topic_X")], [(1, "Topic_X")]⟩
      ⟨["root/Topic_X/a.txt"], ["root/Topic_X"]⟩ [("root/a.txt", 1)]
      [(1, "Topic_X")]).moved = [] ∧
    (syncClusters ⟨"root", [(1, "root/Topic_X")], [(1, "Topic_X")]⟩
      ⟨["root/Topic_X/a.txt"], ["root/Topic_X"]⟩ [("root/a.txt", 1)]
      [(1, "Topic_X")]).moveCount = 0 := by
  have h := c1_amended_second_sync_noop
    ⟨"root", [(1, "root/Topic_X")], [(1, "Topic_X")]⟩
    ⟨["root/Topic_X/a.txt"], ["root/Topic_X"]⟩ [("root/a.txt", 1)]
    [(1, "Topic_X")]
    (by
      intro p c hpc
      simp only [List.mem_singleton, Prod.mk.injEq] at hpc
      obtain ⟨hp, _⟩ := hpc
      subst hp
      exact ⟨by decide, by decide, by decide⟩)
  exact ⟨h.1, h.2.1⟩

end SEFS
